import Mathlib

/-!
Shallow embedding of graphene-django-pagination's core
(src/graphene_django_pagination/connection_field.py) and proofs of the
specification claims about it.

The underlying Django queryset / list is embedded as a `List Item`; the
per-request context object is `Ctx`; operations issued against the backing
store (slice materialization, full materialization, counting) are recorded
in a `List StoreOp` trace so that the count-avoidance properties are
observable.  Offsets are embedded as `Nat`, matching the non-negative
offsets the claims quantify over; the requested limit keeps full Python
generality (`absent`, an arbitrary `Int`, or a non-integer value) because
the validation claims depend on it.
-/

namespace GDP

/-- A Django model object as the pagination code observes it: an `id`
attribute (with `hasId` recording whether the attribute is present at all),
whether the object carries model metadata (`_meta`), and the name of its
model class. -/
structure Item where
  id : Nat
  hasId : Bool
  hasMeta : Bool
  modelName : String
deriving DecidableEq

/-- The per-request context object (`info.context`): the total-count cache
slot `_CachedDjangoPaginationField`, and the `_<model>_result_ids`
attributes written by `_store_result_ids_on_context`, kept as an
association list keyed by attribute name. -/
structure Ctx where
  cachedTotal : Option Nat
  resultIds : List (String × List Nat)
deriving DecidableEq

/-- Lowercasing of a string, character by character, embedding
`str.lower` on model class names. -/
def lowerStr (s : String) : String :=
  String.mk (s.data.map Char.toLower)

/-- `setattr` on the context for a result-ids attribute: overwrite the
slot with that name. -/
def Ctx.setAttr (ctx : Ctx) (name : String) (ids : List Nat) : Ctx :=
  { ctx with resultIds := (name, ids) :: ctx.resultIds.filter (fun p => !(p.1 == name)) }

/-- `getattr` on the context for a result-ids attribute. -/
def Ctx.getAttr (ctx : Ctx) (name : String) : Option (List Nat) :=
  (ctx.resultIds.find? (fun p => p.1 == name)).map Prod.snd

/-- Observable operations issued against the backing store.  `sliceFetch`
is the materialization of `list_slice[offset:offset+limit]`, `materialize`
is `list(list_slice)` on the whole sequence, and `count` is a counting
query recording the sequence that was counted (so a count of the full
sequence is distinguishable from a count of a slice). -/
inductive StoreOp where
  | sliceFetch (off len : Nat)
  | materialize
  | count (seq : List Item)
deriving DecidableEq

/-- Recognizer for counting operations in a trace, used to state the
count-avoidance properties. -/
def isCountOp : StoreOp → Bool
  | StoreOp.count _ => true
  | _ => false

/-- The `limit` argument as the planner receives it: absent, a Python
`int`, or a value of some other type. -/
inductive Limit where
  | absent
  | int (n : Int)
  | notAnInt
deriving DecidableEq

/-- The connection value built by `connection_from_list_slice`: the
materialized `results` list together with the `PageInfoExtra` flags. -/
structure PlanResult where
  results : List Item
  hasPreviousPage : Bool
  hasNextPage : Bool
deriving DecidableEq

/-- Embedding of `_store_result_ids_on_context`: when an info object and a
non-empty result list are present, find the model name (from the queryset
when the sequence is one, otherwise from the first element's `_meta`),
extract the `id` of every element that has one, and store the list under
`_<lowercased model name>_result_ids` on the context.  An element without
an `id` attribute is skipped by the `hasattr` guard, so extraction never
raises; when no model name is available the context is returned
unchanged. -/
def store_result_ids_on_context (isQuerySet : Bool) (qsModelName : String)
    (result_list : List Item) (infoPresent : Bool) (ctx : Ctx) : Ctx :=
  if !infoPresent || result_list.isEmpty then ctx
  else
    let modelName? : Option String :=
      if isQuerySet then some qsModelName
      else
        match result_list with
        | [] => Option.none
        | x :: _ => if x.hasMeta then some x.modelName else Option.none
    match modelName? with
    | Option.none => ctx
    | some m =>
      let ids := (result_list.filter (fun x => x.hasId)).map (fun x => x.id)
      if ids.isEmpty then ctx
      else ctx.setAttr ("_" ++ lowerStr m ++ "_result_ids") ids

/-- Embedding of `connection_from_list_slice`, the window planner.  The
unlimited branch materializes the whole sequence and returns both page
flags false; the limited branch validates the limit with the two asserts,
fetches the slice `[offset, offset+limit)`, and either derives the total
arithmetically (fast path, no count) or counts the full sequence with the
paginator (slow path).  Accessing `info.context` with no info object
raises an `AttributeError`, embedded as the corresponding error value. -/
def connection_from_list_slice (list_slice : List Item) (isQuerySet : Bool)
    (qsModelName : String) (limit : Limit) (offset : Nat) (infoPresent : Bool)
    (ctx : Ctx) : Except String PlanResult × Ctx × List StoreOp :=
  match limit with
  | Limit.absent =>
    let trace := if isQuerySet then [StoreOp.materialize] else []
    let ctx1 := store_result_ids_on_context isQuerySet qsModelName list_slice infoPresent ctx
    (Except.ok { results := list_slice, hasPreviousPage := false, hasNextPage := false },
     ctx1, trace)
  | Limit.notAnInt => (Except.error "Limit must be of type int", ctx, [])
  | Limit.int n =>
    if n ≤ 0 then
      (Except.error "Limit must be positive integer greater than 0", ctx, [])
    else
      let L := n.toNat
      let slice := (list_slice.drop offset).take L
      let trace := [StoreOp.sliceFetch offset L]
      let actual := slice.length
      let ctx1 := store_result_ids_on_context isQuerySet qsModelName slice infoPresent ctx
      if (actual = 0 ∧ offset = 0) ∨ (0 < actual ∧ actual < L) then
        if infoPresent then
          (Except.ok { results := slice, hasPreviousPage := decide (0 < offset),
                       hasNextPage := false },
           { ctx1 with cachedTotal := some (offset + actual) }, trace)
        else
          (Except.error "AttributeError", ctx1, trace)
      else
        let total := list_slice.length
        if infoPresent then
          (Except.ok { results := slice, hasPreviousPage := decide (0 < offset),
                       hasNextPage := decide (offset + L < total) },
           { ctx1 with cachedTotal := some total }, trace ++ [StoreOp.count list_slice])
        else
          (Except.error "AttributeError", ctx1, trace ++ [StoreOp.count list_slice])

/-- Embedding of `NodeConnection.resolve_total_count`: return the cached
total when the context carries one, otherwise count the iterable retained
on the connection. -/
def resolve_total_count (ctx : Ctx) (iterable : List Item) : Nat × List StoreOp :=
  match ctx.cachedTotal with
  | some t => (t, [])
  | Option.none => (iterable.length, [StoreOp.count iterable])

/-- Embedding of `ordering.replace` of a space by the empty string: remove
every space character. -/
def removeSpaces (cs : List Char) : List Char :=
  cs.filter (fun c => decide (c ≠ ' '))

/-- Embedding of `str.split` on a comma: Python split always yields one
more token than the number of commas, keeping empty tokens. -/
def splitOnComma : List Char → List (List Char)
  | [] => [[]]
  | c :: rest =>
    if c = ',' then [] :: splitOnComma rest
    else
      match splitOnComma rest with
      | [] => [[c]]
      | t :: ts => (c :: t) :: ts

/-- Underscore insertion and lowercasing for the characters after the
first: every uppercase ASCII letter gets an underscore inserted before it
and everything is lowercased, embedding the action of the substitution
regex and `str.lower` past position zero. -/
def snakeTail : List Char → List Char
  | [] => []
  | c :: cs =>
    if c.isUpper then '_' :: c.toLower :: snakeTail cs
    else c.toLower :: snakeTail cs

/-- Embedding of the field conversion in `connection_from_list_ordering`:
the substitution regex inserts an underscore before every uppercase letter
not at the start of the string, then the whole string is lowercased. -/
def camel_to_snake (cs : List Char) : List Char :=
  match cs with
  | [] => []
  | c :: rest => c.toLower :: snakeTail rest

/-- Modelled from the spec wording of the field conversion, for comparison
with the source embedding: insert an underscore before every uppercase
letter that is not the first character, then lowercase everything. -/
def snakeSpec (cs : List Char) : List Char :=
  (cs.enum.map (fun p =>
    if p.1 ≠ 0 ∧ p.2.isUpper = true then ['_', p.2.toLower] else [p.2.toLower])).flatten

/-- Embedding of the normalization part of `connection_from_list_ordering`:
remove spaces, split on the comma requiring exactly two tokens, convert the
field token, and map the literal desc token to the descending marker. -/
def ordering_normalize (ordering : String) : Except String (String × String) :=
  match splitOnComma (removeSpaces ordering.data) with
  | [f, o] =>
    Except.ok (String.mk (camel_to_snake f), if o = "desc".data then "-" else "")
  | _ => Except.error "ValueError: malformed ordering"

/-- Embedding of `connection_from_list_ordering`: normalize the ordering
string, then reorder with the custom ordering capability of the node type
when it exists, else with `order_by` on the normalized field.  Both
reorderings are lazy (they issue no store operation) and are supplied as
the one `applyOrd` parameter taking the sequence, the normalized field and
the direction marker. -/
def connection_from_list_ordering (items_list : List Item) (ordering : String)
    (applyOrd : List Item → String → String → List Item) : Except String (List Item) :=
  match ordering_normalize ordering with
  | Except.error e => Except.error e
  | Except.ok fo => Except.ok (applyOrd items_list fo.1 fo.2)

/-- Embedding of `DjangoPaginationConnectionField._resolve_connection`:
apply the ordering normalizer when a truthy ordering string is present,
run the window planner on the possibly reordered sequence, and retain that
sequence on the connection for the total-count fallback.  The `max_limit`
parameter is accepted and, as in the source, never used. -/
def _resolve_connection (xs : List Item) (isQuerySet : Bool) (qsModelName : String)
    (ordering : Option String) (limit : Limit) (offset : Nat) (max_limit : Option Int)
    (infoPresent : Bool) (ctx : Ctx)
    (applyOrd : List Item → String → String → List Item) :
    Except String (PlanResult × List Item) × Ctx × List StoreOp :=
  let ordered : Except String (List Item) :=
    match ordering with
    | Option.none => Except.ok xs
    | some s =>
      if s.isEmpty then Except.ok xs
      else connection_from_list_ordering xs s applyOrd
  match ordered with
  | Except.error e => (Except.error e, ctx, [])
  | Except.ok ys =>
    match connection_from_list_slice ys isQuerySet qsModelName limit offset infoPresent ctx with
    | (Except.error e, c, tr) => (Except.error e, c, tr)
    | (Except.ok pr, c, tr) => (Except.ok (pr, ys), c, tr)

/-- A model object with every attribute present, used for concrete runs. -/
def mkItem (i : Nat) : Item :=
  { id := i, hasId := true, hasMeta := true, modelName := "TestItem" }

/-- An empty request context. -/
def ctx0 : Ctx :=
  { cachedTotal := Option.none, resultIds := [] }

/-- An ordering hook that keeps the sequence unchanged, used where a
concrete `applyOrd` is needed. -/
def ordKeep : List Item → String → String → List Item := fun l _ _ => l

/-- A concrete five-element sequence. -/
def xs5 : List Item := [mkItem 1, mkItem 2, mkItem 3, mkItem 4, mkItem 5]

/-- A concrete eight-element sequence, matching the test fixture size. -/
def xs8 : List Item :=
  [mkItem 1, mkItem 2, mkItem 3, mkItem 4, mkItem 5, mkItem 6, mkItem 7, mkItem 8]

/-! Helper lemmas about the embedded operations. -/

/-- Storing result ids never touches the total-count cache slot. -/
lemma store_cachedTotal (a : Bool) (q : String) (l : List Item) (ip : Bool) (ctx : Ctx) :
    (store_result_ids_on_context a q l ip ctx).cachedTotal = ctx.cachedTotal := by
  unfold store_result_ids_on_context Ctx.setAttr
  split
  · rfl
  · cases a <;> cases l <;> dsimp only <;> (repeat' split) <;> rfl

/-- The planner applied to a positive integer limit, with the validation
and the integer-to-natural bookkeeping discharged. -/
lemma plan_int_pos (xs : List Item) (a : Bool) (q : String) (L offset : Nat)
    (hL : 0 < L) (ip : Bool) (ctx : Ctx) :
    connection_from_list_slice xs a q (Limit.int (L : Int)) offset ip ctx =
      (let slice := (xs.drop offset).take L
       let actual := slice.length
       let ctx1 := store_result_ids_on_context a q slice ip ctx
       if (actual = 0 ∧ offset = 0) ∨ (0 < actual ∧ actual < L) then
         if ip then
           (Except.ok { results := slice, hasPreviousPage := decide (0 < offset),
                        hasNextPage := false },
            { ctx1 with cachedTotal := some (offset + actual) },
            [StoreOp.sliceFetch offset L])
         else (Except.error "AttributeError", ctx1, [StoreOp.sliceFetch offset L])
       else
         if ip then
           (Except.ok { results := slice, hasPreviousPage := decide (0 < offset),
                        hasNextPage := decide (offset + L < xs.length) },
            { ctx1 with cachedTotal := some xs.length },
            [StoreOp.sliceFetch offset L, StoreOp.count xs])
         else
           (Except.error "AttributeError", ctx1,
            [StoreOp.sliceFetch offset L, StoreOp.count xs])) := by
  have h0 : ¬ ((L : Int) ≤ 0) := by exact_mod_cast Nat.not_le.mpr hL
  simp only [connection_from_list_slice, if_neg h0, Int.toNat_natCast,
    List.cons_append, List.nil_append]

/-- Fast path of the planner: the slice alone settles the page, the total
is derived arithmetically and cached, and no count is issued. -/
lemma plan_fast (xs : List Item) (a : Bool) (q : String) (L offset : Nat)
    (hL : 0 < L) (ctx : Ctx)
    (hf : (((xs.drop offset).take L).length = 0 ∧ offset = 0) ∨
          (0 < ((xs.drop offset).take L).length ∧ ((xs.drop offset).take L).length < L)) :
    connection_from_list_slice xs a q (Limit.int (L : Int)) offset true ctx =
      (Except.ok { results := (xs.drop offset).take L,
                   hasPreviousPage := decide (0 < offset), hasNextPage := false },
       { store_result_ids_on_context a q ((xs.drop offset).take L) true ctx with
           cachedTotal := some (offset + ((xs.drop offset).take L).length) },
       [StoreOp.sliceFetch offset L]) := by
  rw [plan_int_pos xs a q L offset hL true ctx]
  simp only [if_pos hf, if_true]

/-- Slow path of the planner: a count of the full sequence is issued, the
counted total is cached, and the next-page flag comes from the offset
arithmetic. -/
lemma plan_slow (xs : List Item) (a : Bool) (q : String) (L offset : Nat)
    (hL : 0 < L) (ctx : Ctx)
    (hs : ¬ ((((xs.drop offset).take L).length = 0 ∧ offset = 0) ∨
          (0 < ((xs.drop offset).take L).length ∧ ((xs.drop offset).take L).length < L))) :
    connection_from_list_slice xs a q (Limit.int (L : Int)) offset true ctx =
      (Except.ok { results := (xs.drop offset).take L,
                   hasPreviousPage := decide (0 < offset),
                   hasNextPage := decide (offset + L < xs.length) },
       { store_result_ids_on_context a q ((xs.drop offset).take L) true ctx with
           cachedTotal := some xs.length },
       [StoreOp.sliceFetch offset L, StoreOp.count xs]) := by
  rw [plan_int_pos xs a q L offset hL true ctx]
  simp only [if_neg hs, if_true]

/-- The length of the fetched slice is the window arithmetic minimum. -/
lemma slice_length (xs : List Item) (offset L : Nat) :
    ((xs.drop offset).take L).length = min L (xs.length - offset) := by
  simp [List.length_take]

/-- A comma-free token is returned whole by the comma split. -/
lemma splitOnComma_no_comma (cs : List Char) (h : ',' ∉ cs) : splitOnComma cs = [cs] := by
  induction cs with
  | nil => rfl
  | cons c cs ih =>
    have hc : ¬ (c = ',') := fun e => h (e ▸ List.mem_cons_self c cs)
    have ht : ',' ∉ cs := fun m => h (List.mem_cons_of_mem c m)
    rw [splitOnComma, if_neg hc, ih ht]

/-- Splitting at the first comma after a comma-free token peels it off. -/
lemma splitOnComma_append (a b : List Char) (ha : ',' ∉ a) :
    splitOnComma (a ++ ',' :: b) = a :: splitOnComma b := by
  induction a with
  | nil => simp [splitOnComma]
  | cons c a ih =>
    have hc : ¬ (c = ',') := fun e => ha (e ▸ List.mem_cons_self c a)
    have ht : ',' ∉ a := fun m => ha (List.mem_cons_of_mem c m)
    rw [List.cons_append, splitOnComma, if_neg hc, ih ht]

/-- Removing spaces keeps a token comma-free. -/
lemma comma_not_mem_removeSpaces (l : List Char) (h : ',' ∉ l) : ',' ∉ removeSpaces l :=
  fun hm => h (List.mem_filter.mp hm).1

/-- Removing spaces distributes over the comma-separated concatenation. -/
lemma removeSpaces_append (f d : List Char) :
    removeSpaces (f ++ ',' :: d) = removeSpaces f ++ ',' :: removeSpaces d := by
  simp [removeSpaces, List.filter_append]

/-- Tail of the source conversion as a map producing one or two characters
per input character. -/
lemma snakeTail_eq_flatten (cs : List Char) :
    snakeTail cs =
      (cs.map (fun c => if c.isUpper = true then ['_', c.toLower] else [c.toLower])).flatten := by
  induction cs with
  | nil => rfl
  | cons c cs ih => by_cases h : c.isUpper = true <;> simp [snakeTail, h, ih]

/-- Positions at least one contribute exactly the source tail conversion to
the spec-side conversion. -/
lemma enumFrom_snake (cs : List Char) (k : Nat) (hk : 0 < k) :
    ((List.enumFrom k cs).map (fun p =>
        if p.1 ≠ 0 ∧ p.2.isUpper = true then ['_', p.2.toLower] else [p.2.toLower])).flatten =
      snakeTail cs := by
  induction cs generalizing k with
  | nil => rfl
  | cons c cs ih =>
    have hk0 : k ≠ 0 := Nat.pos_iff_ne_zero.mp hk
    by_cases h : c.isUpper = true <;>
      simp [List.enumFrom, snakeTail, h, hk0, ih (k + 1) (Nat.succ_pos k)]

/-- The source field conversion agrees with the conversion the spec
describes, on every input. -/
lemma camel_eq_snakeSpec (cs : List Char) : camel_to_snake cs = snakeSpec cs := by
  cases cs with
  | nil => rfl
  | cons c rest =>
    simp [snakeSpec, camel_to_snake, List.enum, List.enumFrom,
      enumFrom_snake rest 1 Nat.one_pos]

/-- A string whose space-stripped form does not split into exactly two
comma-separated tokens makes the normalizer fail. -/
lemma ordering_normalize_error (s : String)
    (h : (splitOnComma (removeSpaces s.data)).length ≠ 2) :
    ordering_normalize s = Except.error "ValueError: malformed ordering" := by
  unfold ordering_normalize
  rcases hsp : splitOnComma (removeSpaces s.data) with _ | ⟨a, _ | ⟨b, _ | ⟨c, rest⟩⟩⟩
  · rfl
  · rfl
  · exact absurd (by rw [hsp]; rfl) h
  · rfl

/-- Reading back the attribute just written. -/
lemma getAttr_setAttr (ctx : Ctx) (n : String) (ids : List Nat) :
    (ctx.setAttr n ids).getAttr n = some ids := by
  simp [Ctx.getAttr, Ctx.setAttr, List.find?]

/-- With an info object, a non-empty result list whose members all carry an
id, and a model name available from the queryset or from the elements, the
store step records exactly the ids of the result list under the
lowercased-model-name attribute. -/
lemma store_stores (isQS : Bool) (qsName m : String) (l : List Item) (ctx : Ctx)
    (hne : l ≠ [])
    (hids : ∀ x ∈ l, x.hasId = true)
    (hmode : (isQS = true ∧ m = qsName) ∨
             (isQS = false ∧ ∀ x ∈ l, x.hasMeta = true ∧ x.modelName = m)) :
    (store_result_ids_on_context isQS qsName l true ctx).getAttr
        ("_" ++ lowerStr m ++ "_result_ids") = some (l.map (fun x => x.id)) := by
  have hfil : l.filter (fun x => x.hasId) = l :=
    List.filter_eq_self.mpr (fun a ha => hids a ha)
  have hempty : l.isEmpty = false := by cases l with
    | nil => exact absurd rfl hne
    | cons x t => rfl
  have hmapne : (l.map (fun x => x.id)).isEmpty = false := by
    cases l with
    | nil => exact absurd rfl hne
    | cons x t => rfl
  unfold store_result_ids_on_context
  rw [if_neg (by simp [hempty])]
  rcases hmode with ⟨hq, hm⟩ | ⟨hq, hmeta⟩
  · subst hq
    subst hm
    simp only [if_pos rfl, hfil, hmapne, Bool.false_eq_true, if_false]
    exact getAttr_setAttr ctx _ _
  · subst hq
    cases l with
    | nil => exact absurd rfl hne
    | cons x t =>
      obtain ⟨hxm, hxn⟩ := hmeta x (List.mem_cons_self x t)
      simp only [Bool.false_eq_true, if_false, hxm, if_pos rfl, hxn, hfil, hmapne]
      exact getAttr_setAttr ctx _ _

/-- The planner result, the trace, and the cached total are independent of
the result-ids slot of the incoming context: the id-storing side effect
cannot change any of them. -/
lemma plan_frame (xs : List Item) (a : Bool) (q : String) (limit : Limit)
    (offset : Nat) (ip : Bool) (ctx : Ctx) (r2 : List (String × List Nat)) :
    (connection_from_list_slice xs a q limit offset ip { ctx with resultIds := r2 }).1 =
      (connection_from_list_slice xs a q limit offset ip ctx).1 ∧
    (connection_from_list_slice xs a q limit offset ip
        { ctx with resultIds := r2 }).2.1.cachedTotal =
      (connection_from_list_slice xs a q limit offset ip ctx).2.1.cachedTotal ∧
    (connection_from_list_slice xs a q limit offset ip { ctx with resultIds := r2 }).2.2 =
      (connection_from_list_slice xs a q limit offset ip ctx).2.2 := by
  cases limit with
  | absent =>
    refine ⟨rfl, ?_, rfl⟩
    exact (store_cachedTotal a q xs ip _).trans (store_cachedTotal a q xs ip ctx).symm
  | notAnInt => exact ⟨rfl, rfl, rfl⟩
  | int n =>
    by_cases hn : n ≤ 0
    · simp [connection_from_list_slice, if_pos hn]
    · simp only [connection_from_list_slice, if_neg hn]
      refine ⟨?_, ?_, ?_⟩ <;> split_ifs <;>
        first
          | rfl
          | exact (store_cachedTotal a q _ ip _).trans (store_cachedTotal a q _ ip ctx).symm

/-- With no ordering requested the resolver passes the sequence through to
the planner unchanged and retains it on the connection. -/
lemma resolve_no_ordering (xs : List Item) (isQS : Bool) (q : String) (limit : Limit)
    (offset : Nat) (ml : Option Int) (ip : Bool) (ctx : Ctx)
    (f : List Item → String → String → List Item) :
    _resolve_connection xs isQS q Option.none limit offset ml ip ctx f =
      ((connection_from_list_slice xs isQS q limit offset ip ctx).1.map (fun pr => (pr, xs)),
       (connection_from_list_slice xs isQS q limit offset ip ctx).2.1,
       (connection_from_list_slice xs isQS q limit offset ip ctx).2.2) := by
  unfold _resolve_connection
  rcases hpl : connection_from_list_slice xs isQS q limit offset ip ctx with ⟨r, c, tr⟩
  cases r <;> simp [hpl, Except.map]

/-! The claims. -/

/-- C1: for every sequence of size N, every requested limit L > 0 and
offset >= 0, the limited branch returns exactly the slice
[offset, offset+L) of the sequence, so the number of results is
min(L, max(0, N-offset)) (truncated subtraction embeds the max); the
resolved total count equals N; hasNextPage iff offset+L < N; and
hasPreviousPage iff offset > 0. -/
theorem C1_limited_branch_window (xs : List Item) (isQS : Bool) (q : String)
    (L offset : Nat) (hL : 0 < L) (ctx : Ctx) :
    ∃ pr : PlanResult,
      (connection_from_list_slice xs isQS q (Limit.int (L : Int)) offset true ctx).1 =
        Except.ok pr ∧
      pr.results = (xs.drop offset).take L ∧
      pr.results.length = min L (xs.length - offset) ∧
      (resolve_total_count
        (connection_from_list_slice xs isQS q (Limit.int (L : Int)) offset true ctx).2.1
        xs).1 = xs.length ∧
      pr.hasNextPage = decide (offset + L < xs.length) ∧
      pr.hasPreviousPage = decide (0 < offset) := by
  have hm := slice_length xs offset L
  by_cases hf : (((xs.drop offset).take L).length = 0 ∧ offset = 0) ∨
      (0 < ((xs.drop offset).take L).length ∧ ((xs.drop offset).take L).length < L)
  · have h1 : offset + ((xs.drop offset).take L).length = xs.length := by omega
    have h2 : ¬ (offset + L < xs.length) := by omega
    rw [plan_fast xs isQS q L offset hL ctx hf]
    refine ⟨_, rfl, rfl, hm, ?_, ?_, rfl⟩
    · simpa [resolve_total_count] using h1
    · exact (decide_eq_false h2).symm
  · rw [plan_slow xs isQS q L offset hL ctx hf]
    exact ⟨_, rfl, rfl, hm, by simp [resolve_total_count], rfl, rfl⟩

/-- Witness for C1 at the concrete middle page of the eight-element
sequence with limit 3 and offset 3. -/
theorem C1_witness :
    0 < 3 ∧
    ∃ pr : PlanResult,
      (connection_from_list_slice xs8 true "TestItem" (Limit.int ((3 : Nat) : Int)) 3 true
        ctx0).1 = Except.ok pr ∧
      pr.results = (xs8.drop 3).take 3 ∧
      pr.results.length = min 3 (xs8.length - 3) ∧
      (resolve_total_count
        (connection_from_list_slice xs8 true "TestItem" (Limit.int ((3 : Nat) : Int)) 3 true
          ctx0).2.1 xs8).1 = xs8.length ∧
      pr.hasNextPage = decide (3 + 3 < xs8.length) ∧
      pr.hasPreviousPage = decide (0 < 3) :=
  ⟨by decide, C1_limited_branch_window xs8 true "TestItem" 3 3 (by decide) ctx0⟩

/-- C2: whenever the materialized slice has length n with n == 0 and
offset == 0, or 0 < n < L, the planner issues no counting operation, the
total is derived as offset + n and written to the cache, hasNextPage is
false and hasPreviousPage is offset > 0. -/
theorem C2_fast_path (xs : List Item) (isQS : Bool) (q : String)
    (L offset : Nat) (hL : 0 < L) (ctx : Ctx)
    (hf : (((xs.drop offset).take L).length = 0 ∧ offset = 0) ∨
          (0 < ((xs.drop offset).take L).length ∧ ((xs.drop offset).take L).length < L)) :
    (connection_from_list_slice xs isQS q (Limit.int (L : Int)) offset true ctx).1 =
      Except.ok { results := (xs.drop offset).take L,
                  hasPreviousPage := decide (0 < offset), hasNextPage := false } ∧
    (connection_from_list_slice xs isQS q (Limit.int (L : Int)) offset true
        ctx).2.1.cachedTotal = some (offset + ((xs.drop offset).take L).length) ∧
    (connection_from_list_slice xs isQS q (Limit.int (L : Int)) offset true ctx).2.2 =
      [StoreOp.sliceFetch offset L] ∧
    (connection_from_list_slice xs isQS q (Limit.int (L : Int)) offset true
        ctx).2.2.filter isCountOp = [] := by
  rw [plan_fast xs isQS q L offset hL ctx hf]
  exact ⟨rfl, rfl, rfl, rfl⟩

/-- Witness for C2 at the concrete last page of the eight-element sequence
with limit 3 and offset 6 (two items returned, no count). -/
theorem C2_witness :
    (connection_from_list_slice xs8 true "TestItem" (Limit.int ((3 : Nat) : Int)) 6 true
        ctx0).1 =
      Except.ok { results := (xs8.drop 6).take 3,
                  hasPreviousPage := decide (0 < 6), hasNextPage := false } ∧
    (connection_from_list_slice xs8 true "TestItem" (Limit.int ((3 : Nat) : Int)) 6 true
        ctx0).2.1.cachedTotal = some (6 + ((xs8.drop 6).take 3).length) ∧
    (connection_from_list_slice xs8 true "TestItem" (Limit.int ((3 : Nat) : Int)) 6 true
        ctx0).2.2 = [StoreOp.sliceFetch 6 3] ∧
    (connection_from_list_slice xs8 true "TestItem" (Limit.int ((3 : Nat) : Int)) 6 true
        ctx0).2.2.filter isCountOp = [] :=
  C2_fast_path xs8 true "TestItem" 3 6 (by decide) ctx0 (by decide)

/-- C3: when the slice comes back full (n == L), or empty with a positive
offset, the planner issues exactly one count, of the full underlying
sequence rather than of the slice, caches that total, and computes
hasPreviousPage as offset > 0 and hasNextPage as offset + L < total. -/
theorem C3_slow_path (xs : List Item) (isQS : Bool) (q : String)
    (L offset : Nat) (hL : 0 < L) (ctx : Ctx)
    (hs : ((xs.drop offset).take L).length = L ∨
          (((xs.drop offset).take L).length = 0 ∧ 0 < offset)) :
    (connection_from_list_slice xs isQS q (Limit.int (L : Int)) offset true ctx).1 =
      Except.ok { results := (xs.drop offset).take L,
                  hasPreviousPage := decide (0 < offset),
                  hasNextPage := decide (offset + L < xs.length) } ∧
    (connection_from_list_slice xs isQS q (Limit.int (L : Int)) offset true
        ctx).2.1.cachedTotal = some xs.length ∧
    (connection_from_list_slice xs isQS q (Limit.int (L : Int)) offset true ctx).2.2 =
      [StoreOp.sliceFetch offset L, StoreOp.count xs] ∧
    (connection_from_list_slice xs isQS q (Limit.int (L : Int)) offset true
        ctx).2.2.filter isCountOp = [StoreOp.count xs] := by
  have hnf : ¬ ((((xs.drop offset).take L).length = 0 ∧ offset = 0) ∨
      (0 < ((xs.drop offset).take L).length ∧ ((xs.drop offset).take L).length < L)) := by
    omega
  rw [plan_slow xs isQS q L offset hL ctx hnf]
  exact ⟨rfl, rfl, rfl, rfl⟩

/-- Witness for C3 at the concrete middle page of the eight-element
sequence with limit 3 and offset 3 (a full page, one count of the whole
sequence). -/
theorem C3_witness :
    (connection_from_list_slice xs8 true "TestItem" (Limit.int ((3 : Nat) : Int)) 3 true
        ctx0).1 =
      Except.ok { results := (xs8.drop 3).take 3,
                  hasPreviousPage := decide (0 < 3),
                  hasNextPage := decide (3 + 3 < xs8.length) } ∧
    (connection_from_list_slice xs8 true "TestItem" (Limit.int ((3 : Nat) : Int)) 3 true
        ctx0).2.1.cachedTotal = some xs8.length ∧
    (connection_from_list_slice xs8 true "TestItem" (Limit.int ((3 : Nat) : Int)) 3 true
        ctx0).2.2 = [StoreOp.sliceFetch 3 3, StoreOp.count xs8] ∧
    (connection_from_list_slice xs8 true "TestItem" (Limit.int ((3 : Nat) : Int)) 3 true
        ctx0).2.2.filter isCountOp = [StoreOp.count xs8] :=
  C3_slow_path xs8 true "TestItem" 3 3 (by decide) ctx0 (by decide)

/-- C6: a non-integer limit fails with exactly the message Limit must be
of type int, a non-positive integer limit fails with exactly the message
Limit must be positive integer greater than 0, and in both cases the
context is untouched and the trace is empty, so no slice, materialize or
count operation has touched the sequence. -/
theorem C6_limit_validation (xs : List Item) (isQS : Bool) (q : String)
    (offset : Nat) (ip : Bool) (ctx : Ctx) :
    connection_from_list_slice xs isQS q Limit.notAnInt offset ip ctx =
      (Except.error "Limit must be of type int", ctx, []) ∧
    ∀ n : Int, n ≤ 0 →
      connection_from_list_slice xs isQS q (Limit.int n) offset ip ctx =
        (Except.error "Limit must be positive integer greater than 0", ctx, []) := by
  refine ⟨rfl, ?_⟩
  intro n hn
  simp only [connection_from_list_slice, if_pos hn]

/-- Witness for C6 at limits 0 and -1 and at a non-integer limit. -/
theorem C6_witness :
    connection_from_list_slice xs8 true "TestItem" (Limit.int 0) 0 true ctx0 =
      (Except.error "Limit must be positive integer greater than 0", ctx0, []) ∧
    connection_from_list_slice xs8 true "TestItem" (Limit.int (-1)) 2 true ctx0 =
      (Except.error "Limit must be positive integer greater than 0", ctx0, []) ∧
    connection_from_list_slice xs8 true "TestItem" Limit.notAnInt 0 true ctx0 =
      (Except.error "Limit must be of type int", ctx0, []) :=
  ⟨(C6_limit_validation xs8 true "TestItem" 0 true ctx0).2 0 (by decide),
   (C6_limit_validation xs8 true "TestItem" 2 true ctx0).2 (-1) (by decide),
   (C6_limit_validation xs8 true "TestItem" 0 true ctx0).1⟩

/-- C4 counterexample: in the unlimited branch with offset 1 the planner
returns hasPreviousPage false although the offset is positive, so the
invariant hasPreviousPage == (offset > 0) does not hold of every planner
invocation. -/
theorem C4_counterexample :
    (connection_from_list_slice [mkItem 1] true "TestItem" Limit.absent 1 true ctx0).1 =
      Except.ok { results := [mkItem 1], hasPreviousPage := false, hasNextPage := false } ∧
    (0 : Nat) < 1 ∧ false ≠ decide ((0 : Nat) < 1) :=
  ⟨rfl, by decide, by decide⟩

/-- C4 amended: every limited planner invocation satisfies
hasPreviousPage == (offset > 0) and hasNextPage == (an item exists beyond
offset+limit); the unlimited branch returns both flags false
unconditionally, regardless of offset. -/
theorem C4_amended (xs : List Item) (isQS : Bool) (q : String) (offset : Nat) (ctx : Ctx) :
    (∀ L : Nat, 0 < L → ∀ pr : PlanResult,
      (connection_from_list_slice xs isQS q (Limit.int (L : Int)) offset true ctx).1 =
        Except.ok pr →
      pr.hasPreviousPage = decide (0 < offset) ∧
      pr.hasNextPage = decide (offset + L < xs.length)) ∧
    (∀ (ip : Bool) (pr : PlanResult),
      (connection_from_list_slice xs isQS q Limit.absent offset ip ctx).1 = Except.ok pr →
      pr.hasPreviousPage = false ∧ pr.hasNextPage = false) := by
  constructor
  · intro L hL pr hok
    have hm := slice_length xs offset L
    by_cases hf : (((xs.drop offset).take L).length = 0 ∧ offset = 0) ∨
        (0 < ((xs.drop offset).take L).length ∧ ((xs.drop offset).take L).length < L)
    · have h2 : ¬ (offset + L < xs.length) := by omega
      rw [plan_fast xs isQS q L offset hL ctx hf] at hok
      cases hok
      exact ⟨rfl, (decide_eq_false h2).symm⟩
    · rw [plan_slow xs isQS q L offset hL ctx hf] at hok
      cases hok
      exact ⟨rfl, rfl⟩
  · intro ip pr hok
    simp only [connection_from_list_slice, Except.ok.injEq] at hok
    subst hok
    exact ⟨rfl, rfl⟩

/-- Witness for the amended C4 at the middle page of the eight-element
sequence. -/
theorem C4_witness :
    ({ results := [mkItem 4, mkItem 5, mkItem 6], hasPreviousPage := true,
       hasNextPage := true } : PlanResult).hasPreviousPage = decide (0 < 3) ∧
    ({ results := [mkItem 4, mkItem 5, mkItem 6], hasPreviousPage := true,
       hasNextPage := true } : PlanResult).hasNextPage = decide (3 + 3 < xs8.length) :=
  (C4_amended xs8 true "TestItem" 3 ctx0).1 3 (by decide)
    { results := [mkItem 4, mkItem 5, mkItem 6], hasPreviousPage := true,
      hasNextPage := true } rfl

/-- C5 counterexample: with a hard limit of 3 configured, a request with
limit 5 against five items returns five results, not min 5 3 = 3, and an
unlimited request also returns all five results instead of being capped at
3: the max limit parameter is never applied. -/
theorem C5_counterexample :
    ((_resolve_connection xs5 true "TestItem" Option.none (Limit.int 5) 0 (some 3) true ctx0
        ordKeep).1.map (fun p => p.1.results.length) = Except.ok 5) ∧
    ((_resolve_connection xs5 true "TestItem" Option.none Limit.absent 0 (some 3) true ctx0
        ordKeep).1.map (fun p => p.1.results.length) = Except.ok 5) ∧
    min 5 3 = 3 ∧ (5 : Nat) ≠ 3 :=
  ⟨rfl, rfl, rfl, by decide⟩

/-- C5 amended: the configured hard limit is accepted but never applied:
resolution is identical for every max limit value, and the effective page
size is governed by the requested limit alone. -/
theorem C5_amended (xs : List Item) (isQS : Bool) (q : String) (ordering : Option String)
    (limit : Limit) (offset : Nat) (ml : Option Int) (ip : Bool) (ctx : Ctx)
    (f : List Item → String → String → List Item) :
    _resolve_connection xs isQS q ordering limit offset ml ip ctx f =
      _resolve_connection xs isQS q ordering limit offset Option.none ip ctx f ∧
    (∀ L : Nat, 0 < L →
      (_resolve_connection xs isQS q Option.none (Limit.int (L : Int)) offset ml true ctx
          f).1.map (fun p => p.1.results.length) =
        Except.ok (min L (xs.length - offset))) := by
  refine ⟨rfl, ?_⟩
  intro L hL
  rw [resolve_no_ordering]
  by_cases hf : (((xs.drop offset).take L).length = 0 ∧ offset = 0) ∨
      (0 < ((xs.drop offset).take L).length ∧ ((xs.drop offset).take L).length < L)
  · rw [plan_fast xs isQS q L offset hL ctx hf]
    simp [Except.map, slice_length]
  · rw [plan_slow xs isQS q L offset hL ctx hf]
    simp [Except.map, slice_length]

/-- Witness for the amended C5: a limit-5 request over five items with a
smaller hard limit configured still yields min 5 5 = 5 results. -/
theorem C5_witness :
    (_resolve_connection xs5 true "TestItem" Option.none (Limit.int ((5 : Nat) : Int)) 0
        (some 3) true ctx0 ordKeep).1.map (fun p => p.1.results.length) =
      Except.ok (min 5 (xs5.length - 0)) :=
  (C5_amended xs5 true "TestItem" Option.none Limit.absent 0 (some 3) true ctx0 ordKeep).2
    5 (by decide)

/-- C7: the planner writes a resolved total to the cache slot in every
valid limited invocation and leaves the slot untouched in the unlimited
branch; the total-count resolver returns a cached value with no store
operation, falls back to one count of the retained iterable when the cache
is empty, and after any limited plan every resolver call (in particular a
second one) is a pure cache hit issuing no count. -/
theorem C7_total_count_cache (xs : List Item) (isQS : Bool) (q : String) :
    (∀ (L offset : Nat) (ctx : Ctx), 0 < L →
      ∃ t, (connection_from_list_slice xs isQS q (Limit.int (L : Int)) offset true
          ctx).2.1.cachedTotal = some t) ∧
    (∀ (offset : Nat) (ip : Bool) (ctx : Ctx),
      (connection_from_list_slice xs isQS q Limit.absent offset ip ctx).2.1.cachedTotal =
        ctx.cachedTotal) ∧
    (∀ (ctx : Ctx) (t : Nat), ctx.cachedTotal = some t →
      resolve_total_count ctx xs = (t, [])) ∧
    (∀ ctx : Ctx, ctx.cachedTotal = Option.none →
      resolve_total_count ctx xs = (xs.length, [StoreOp.count xs])) ∧
    (∀ (L offset : Nat) (ctx : Ctx), 0 < L →
      (resolve_total_count
        (connection_from_list_slice xs isQS q (Limit.int (L : Int)) offset true ctx).2.1
        xs).2 = []) := by
  have hcache : ∀ (L offset : Nat) (ctx : Ctx), 0 < L →
      ∃ t, (connection_from_list_slice xs isQS q (Limit.int (L : Int)) offset true
          ctx).2.1.cachedTotal = some t := by
    intro L offset ctx hL
    by_cases hf : (((xs.drop offset).take L).length = 0 ∧ offset = 0) ∨
        (0 < ((xs.drop offset).take L).length ∧ ((xs.drop offset).take L).length < L)
    · rw [plan_fast xs isQS q L offset hL ctx hf]
      exact ⟨_, rfl⟩
    · rw [plan_slow xs isQS q L offset hL ctx hf]
      exact ⟨_, rfl⟩
  refine ⟨hcache, ?_, ?_, ?_, ?_⟩
  · intro offset ip ctx
    exact store_cachedTotal isQS q xs ip ctx
  · intro ctx t h
    simp [resolve_total_count, h]
  · intro ctx h
    simp [resolve_total_count, h]
  · intro L offset ctx hL
    obtain ⟨t, ht⟩ := hcache L offset ctx hL
    simp [resolve_total_count, ht]

/-- Witness for C7, exercising each clause at concrete inputs. -/
theorem C7_witness :
    (∃ t, (connection_from_list_slice xs8 true "TestItem" (Limit.int ((1 : Nat) : Int)) 0
        true ctx0).2.1.cachedTotal = some t) ∧
    (connection_from_list_slice xs8 true "TestItem" Limit.absent 2 true
        ctx0).2.1.cachedTotal = ctx0.cachedTotal ∧
    resolve_total_count { cachedTotal := some 7, resultIds := [] } xs8 = (7, []) ∧
    resolve_total_count ctx0 xs8 = (xs8.length, [StoreOp.count xs8]) ∧
    (resolve_total_count
      (connection_from_list_slice xs8 true "TestItem" (Limit.int ((1 : Nat) : Int)) 0 true
        ctx0).2.1 xs8).2 = [] :=
  ⟨(C7_total_count_cache xs8 true "TestItem").1 1 0 ctx0 (by decide),
   (C7_total_count_cache xs8 true "TestItem").2.1 2 true ctx0,
   (C7_total_count_cache xs8 true "TestItem").2.2.1 { cachedTotal := some 7, resultIds := [] }
     7 rfl,
   (C7_total_count_cache xs8 true "TestItem").2.2.2.1 ctx0 rfl,
   (C7_total_count_cache xs8 true "TestItem").2.2.2.2 1 0 ctx0 (by decide)⟩

/-- C8: for every well-formed ordering string built from a comma-free
field token and a comma-free direction token, the normalizer returns the
field transformed exactly as the spec describes (an underscore inserted
before every uppercase letter that is not the first character, then
everything lowercased, spaces removed) and the descending marker iff the
direction token is literally desc; any other direction token, asc
included, yields the ascending empty marker. -/
theorem C8_ordering_normalization (f d : List Char) (hf : ',' ∉ f) (hd : ',' ∉ d) :
    ordering_normalize (String.mk (f ++ ',' :: d)) =
      Except.ok (String.mk (snakeSpec (removeSpaces f)),
        if removeSpaces d = "desc".data then "-" else "") := by
  unfold ordering_normalize
  have h1 : (String.mk (f ++ ',' :: d)).data = f ++ ',' :: d := rfl
  rw [h1, removeSpaces_append,
    splitOnComma_append _ _ (comma_not_mem_removeSpaces f hf),
    splitOnComma_no_comma _ (comma_not_mem_removeSpaces d hd)]
  dsimp only
  rw [camel_eq_snakeSpec]

/-- Witness for C8 on the spec examples createdAt desc and name asc. -/
theorem C8_witness :
    ordering_normalize (String.mk ("createdAt".data ++ ',' :: " desc".data)) =
      Except.ok (String.mk (snakeSpec (removeSpaces "createdAt".data)),
        if removeSpaces " desc".data = "desc".data then "-" else "") ∧
    String.mk (snakeSpec (removeSpaces "createdAt".data)) = "created_at" ∧
    (if removeSpaces " desc".data = "desc".data then "-" else "") = "-" ∧
    ordering_normalize (String.mk ("name".data ++ ',' :: " asc".data)) =
      Except.ok (String.mk (snakeSpec (removeSpaces "name".data)),
        if removeSpaces " asc".data = "desc".data then "-" else "") ∧
    (if removeSpaces " asc".data = "desc".data then "-" else "") = "" :=
  ⟨C8_ordering_normalization "createdAt".data " desc".data (by decide) (by decide),
   by decide, by decide,
   C8_ordering_normalization "name".data " asc".data (by decide) (by decide),
   by decide⟩

/-- C9: a non-empty ordering string whose space-stripped form does not
split into exactly two comma-separated tokens makes the resolution fail
with an error before any slice, materialize or count operation is issued
(the trace is empty and the context untouched); with no ordering supplied
the sequence is passed through to the planner unchanged. -/
theorem C9_malformed_ordering (xs : List Item) (isQS : Bool) (q : String) (limit : Limit)
    (offset : Nat) (ml : Option Int) (ip : Bool) (ctx : Ctx)
    (f : List Item → String → String → List Item) (s : String)
    (hs : s.isEmpty = false)
    (hmal : (splitOnComma (removeSpaces s.data)).length ≠ 2) :
    _resolve_connection xs isQS q (some s) limit offset ml ip ctx f =
      (Except.error "ValueError: malformed ordering", ctx, []) ∧
    _resolve_connection xs isQS q Option.none limit offset ml ip ctx f =
      ((connection_from_list_slice xs isQS q limit offset ip ctx).1.map (fun pr => (pr, xs)),
       (connection_from_list_slice xs isQS q limit offset ip ctx).2.1,
       (connection_from_list_slice xs isQS q limit offset ip ctx).2.2) := by
  refine ⟨?_, resolve_no_ordering xs isQS q limit offset ml ip ctx f⟩
  simp only [_resolve_connection, connection_from_list_ordering, hs, Bool.false_eq_true,
    if_false, ordering_normalize_error s hmal]

/-- Witness for C9 at a concrete malformed ordering string. -/
theorem C9_witness :
    _resolve_connection xs8 true "TestItem" (some "nofield") Limit.absent 0 Option.none true
        ctx0 ordKeep = (Except.error "ValueError: malformed ordering", ctx0, []) ∧
    _resolve_connection xs8 true "TestItem" Option.none Limit.absent 0 Option.none true ctx0
        ordKeep =
      ((connection_from_list_slice xs8 true "TestItem" Limit.absent 0 true ctx0).1.map
          (fun pr => (pr, xs8)),
       (connection_from_list_slice xs8 true "TestItem" Limit.absent 0 true ctx0).2.1,
       (connection_from_list_slice xs8 true "TestItem" Limit.absent 0 true ctx0).2.2) :=
  C9_malformed_ordering xs8 true "TestItem" Limit.absent 0 Option.none true ctx0 ordKeep
    "nofield" (by decide) (by decide)

/-- C10: on every successful resolution, limited or unlimited, with an
info object and a non-empty page of model objects, the ids of exactly the
returned page elements are stored on the context under the attribute
built from the lowercased model name; and the side effect never changes
the results, the page info or the total count, since those outputs are
independent of the result-ids slot of the context.  A page element
without an id attribute is skipped by the hasattr guard rather than
raising, which is how the silent-failure clause manifests in the pure
embedding. -/
theorem C10_result_ids (xs : List Item) (isQS : Bool) (qsName m : String)
    (limit : Limit) (offset : Nat) (ctx : Ctx) (r2 : List (String × List Nat))
    (pr : PlanResult)
    (hmode : (isQS = true ∧ m = qsName) ∨
             (isQS = false ∧ ∀ x ∈ xs, x.hasMeta = true ∧ x.modelName = m))
    (hid : ∀ x ∈ xs, x.hasId = true)
    (hok : (connection_from_list_slice xs isQS qsName limit offset true ctx).1 =
      Except.ok pr)
    (hne : pr.results ≠ []) :
    (connection_from_list_slice xs isQS qsName limit offset true ctx).2.1.getAttr
        ("_" ++ lowerStr m ++ "_result_ids") = some (pr.results.map (fun x => x.id)) ∧
    (connection_from_list_slice xs isQS qsName limit offset true
        { ctx with resultIds := r2 }).1 =
      (connection_from_list_slice xs isQS qsName limit offset true ctx).1 ∧
    (connection_from_list_slice xs isQS qsName limit offset true
        { ctx with resultIds := r2 }).2.1.cachedTotal =
      (connection_from_list_slice xs isQS qsName limit offset true ctx).2.1.cachedTotal ∧
    (connection_from_list_slice xs isQS qsName limit offset true
        { ctx with resultIds := r2 }).2.2 =
      (connection_from_list_slice xs isQS qsName limit offset true ctx).2.2 := by
  refine ⟨?_, (plan_frame xs isQS qsName limit offset true ctx r2).1,
    (plan_frame xs isQS qsName limit offset true ctx r2).2.1,
    (plan_frame xs isQS qsName limit offset true ctx r2).2.2⟩
  cases limit with
  | notAnInt => exact absurd hok (by simp [connection_from_list_slice])
  | absent =>
    simp only [connection_from_list_slice, Except.ok.injEq] at hok
    subst hok
    exact store_stores isQS qsName m xs ctx hne hid hmode
  | int n =>
    by_cases hn : n ≤ 0
    · exact absurd hok (by simp [connection_from_list_slice, if_pos hn])
    · have hpos : 0 < n := by omega
      obtain ⟨L, rfl⟩ : ∃ L : Nat, n = (L : Int) :=
        ⟨n.toNat, (Int.toNat_of_nonneg (le_of_lt hpos)).symm⟩
      have hL : 0 < L := by exact_mod_cast hpos
      have hsub : ∀ x ∈ (xs.drop offset).take L, x ∈ xs := by
        intro x hx
        exact List.drop_subset _ _ (List.take_subset _ _ hx)
      have hid2 : ∀ x ∈ (xs.drop offset).take L, x.hasId = true :=
        fun x hx => hid x (hsub x hx)
      have hmode2 : (isQS = true ∧ m = qsName) ∨
          (isQS = false ∧ ∀ x ∈ (xs.drop offset).take L,
            x.hasMeta = true ∧ x.modelName = m) := by
        rcases hmode with h | ⟨h1, h2⟩
        · exact Or.inl h
        · exact Or.inr ⟨h1, fun x hx => h2 x (hsub x hx)⟩
      by_cases hfast : (((xs.drop offset).take L).length = 0 ∧ offset = 0) ∨
          (0 < ((xs.drop offset).take L).length ∧ ((xs.drop offset).take L).length < L)
      · rw [plan_fast xs isQS qsName L offset hL ctx hfast] at hok ⊢
        cases hok
        exact store_stores isQS qsName m _ ctx hne hid2 hmode2
      · rw [plan_slow xs isQS qsName L offset hL ctx hfast] at hok ⊢
        cases hok
        exact store_stores isQS qsName m _ ctx hne hid2 hmode2

/-- Witness for C10 on a concrete fast-path page covering the whole
five-element sequence. -/
theorem C10_witness :
    (connection_from_list_slice xs5 true "TestItem" (Limit.int ((7 : Nat) : Int)) 0 true
        ctx0).2.1.getAttr ("_" ++ lowerStr "TestItem" ++ "_result_ids") =
      some (({ results := xs5, hasPreviousPage := false,
               hasNextPage := false } : PlanResult).results.map (fun x => x.id)) ∧
    (connection_from_list_slice xs5 true "TestItem" (Limit.int ((7 : Nat) : Int)) 0 true
        { ctx0 with resultIds := [("x", [9])] }).1 =
      (connection_from_list_slice xs5 true "TestItem" (Limit.int ((7 : Nat) : Int)) 0 true
        ctx0).1 ∧
    (connection_from_list_slice xs5 true "TestItem" (Limit.int ((7 : Nat) : Int)) 0 true
        { ctx0 with resultIds := [("x", [9])] }).2.1.cachedTotal =
      (connection_from_list_slice xs5 true "TestItem" (Limit.int ((7 : Nat) : Int)) 0 true
        ctx0).2.1.cachedTotal ∧
    (connection_from_list_slice xs5 true "TestItem" (Limit.int ((7 : Nat) : Int)) 0 true
        { ctx0 with resultIds := [("x", [9])] }).2.2 =
      (connection_from_list_slice xs5 true "TestItem" (Limit.int ((7 : Nat) : Int)) 0 true
        ctx0).2.2 :=
  C10_result_ids xs5 true "TestItem" "TestItem" (Limit.int ((7 : Nat) : Int)) 0 ctx0
    [("x", [9])] { results := xs5, hasPreviousPage := false, hasNextPage := false }
    (Or.inl ⟨rfl, rfl⟩) (by decide) rfl (by decide)

end GDP
